import Mathlib

/-!
Verification of the plazen/telegram task-scheduling bot.

The development shallowly embeds the Python sources (src/utils.py,
src/handlers.py, src/jobs.py, src/db.py) into Lean:

* wall-clock instants within one local day are naturals counting
  microseconds since local midnight (Python datetimes carry microsecond
  precision, and every comparison the code makes stays inside one day);
* Python byte strings are lists of naturals below 256;
* Python text strings are Lean strings, manipulated through their
  character lists with helpers that mirror Python's str.split, str.strip,
  str.lower and str.upper;
* the external AES-GCM primitive and the UTF-8 codec (library code, not
  part of this repository) are a bundled parameter carrying exactly the
  functional contract the sources rely on;
* the regular expressions of the sources are embedded operationally, with
  the backtracking order of Python's re engine spelled out where it is
  observable.
-/

namespace Plazen

/-! ## Time units: naturals counting microseconds since local midnight -/

/-- Number of microseconds in one minute. -/
def minuteUs : Nat := 60000000

/-- Number of microseconds in one hour. -/
def hourUs : Nat := 3600000000

/-- Number of microseconds in one day. -/
def dayUs : Nat := 86400000000

/-- Number of microseconds in the 15-minute stride of the slot search in
src/handlers.py. -/
def stepUs : Nat := 15 * minuteUs

/-! ## Python string helpers (on character lists) -/

/-- Python str.split with a single-character separator: `"a:b".split(':')`
gives `["a", "b"]`, the empty string gives `[""]`, and a separator at either
end contributes an empty field. -/
def splitOnChar (sep : Char) : List Char → List (List Char)
  | [] => [[]]
  | c :: rest =>
    if c = sep then [] :: splitOnChar sep rest
    else
      match splitOnChar sep rest with
      | g :: gs => (c :: g) :: gs
      | [] => [[c]]

/-- Whitespace characters stripped by Python's str.strip (the ASCII ones;
the sources only ever strip spaces). -/
def isPySpace (c : Char) : Bool :=
  c = ' ' || c = '\t' || c = '\n' || c = '\r' || c = '\x0b' || c = '\x0c'

/-- Python str.strip: drop leading and trailing whitespace. -/
def pyStrip (l : List Char) : List Char :=
  ((l.dropWhile isPySpace).reverse.dropWhile isPySpace).reverse

/-- Python str.lower (ASCII case folding; the sources lower-case only ASCII
command text). -/
def pyLower (l : List Char) : List Char := l.map Char.toLower

/-- Python str.upper (ASCII case folding). -/
def pyUpper (l : List Char) : List Char := l.map Char.toUpper

/-! ## Hex codec, as used by bytes.hex() and bytes.fromhex() -/

/-- Value of one hex digit, upper or lower case; none for other characters,
where bytes.fromhex raises ValueError. -/
def hexDigitVal (c : Char) : Option Nat :=
  if '0' ≤ c && c ≤ '9' then some (c.toNat - 48)
  else if 'a' ≤ c && c ≤ 'f' then some (c.toNat - 87)
  else if 'A' ≤ c && c ≤ 'F' then some (c.toNat - 55)
  else none

/-- Lower-case hex digit for a value below 16, as bytes.hex() emits. -/
def hexDigitChar (n : Nat) : Char :=
  if n < 10 then Char.ofNat (48 + n) else Char.ofNat (87 + n)

/-- bytes.hex(): two lower-case hex digits per byte. -/
def hexOfBytes : List Nat → List Char
  | [] => []
  | b :: bs => hexDigitChar (b / 16) :: hexDigitChar (b % 16) :: hexOfBytes bs

/-- Decode a spaces-removed hex digit list two digits at a time; none models
the ValueError bytes.fromhex raises on an odd count or a non-hex character. -/
def hexPairs : List Char → Option (List Nat)
  | [] => some []
  | [_] => none
  | c1 :: c2 :: rest =>
    match hexDigitVal c1, hexDigitVal c2, hexPairs rest with
    | some h, some lo, some bs => some ((16 * h + lo) :: bs)
    | _, _, _ => none

/-- bytes.fromhex(): ASCII spaces are skipped, then the string must be an
even count of hex digits; none models the ValueError otherwise. -/
def fromHex (l : List Char) : Option (List Nat) :=
  hexPairs (l.filter (fun c => c ≠ ' '))

/-- All members of a byte list are genuine byte values. -/
def ValidBytes (l : List Nat) : Prop := ∀ b ∈ l, b < 256

/-! ## The external AEAD primitive and UTF-8 codec

src/utils.py drives AES-256-GCM from the pycryptodome library over UTF-8
encoded titles.  Neither the cipher nor the codec is code of this
repository; they enter the embedding as one bundled parameter whose fields
state exactly the documented functional contract the wrappers rely on:
authenticated decryption inverts encryption, ciphertext length equals
plaintext length, encryption emits genuine bytes, UTF-8 decoding inverts
encoding, and a non-empty text encodes to a non-empty byte string. -/

structure ExternalCrypto where
  utf8Enc : String → List Nat
  utf8Dec : List Nat → Option String
  aeadEnc : List Nat → List Nat → List Nat × List Nat
  aeadDec : List Nat → List Nat → List Nat → Option (List Nat)
  utf8_roundtrip : ∀ s, utf8Dec (utf8Enc s) = some s
  utf8_valid : ∀ s, ValidBytes (utf8Enc s)
  utf8_nonempty : ∀ s, s ≠ "" → utf8Enc s ≠ []
  aead_ct_valid : ∀ n p, ValidBytes p → ValidBytes (aeadEnc n p).1
  aead_tag_valid : ∀ n p, ValidBytes p → ValidBytes (aeadEnc n p).2
  aead_roundtrip : ∀ n p, ValidBytes p →
    aeadDec n (aeadEnc n p).1 (aeadEnc n p).2 = some p

/-! ## encrypt and decrypt (src/utils.py lines 14-51)

`encrypt` receives the fresh random nonce (get_random_bytes) as an
argument, and a flag `exc` that is true when some step inside its try
block raises: the except handler logs and returns the plaintext
unchanged, so the embedding returns the input in that case.

`decrypt` never raises: every decoding failure the body can produce —
malformed hex (ValueError from bytes.fromhex), an authentication failure
(ValueError from decrypt_and_verify), a bad nonce (ValueError from
AES.new), or invalid UTF-8 in the decrypted bytes (UnicodeDecodeError,
which is a subclass of ValueError) — lands in the
`except (ValueError, TypeError)` handler, which returns the stored string
unchanged.  The second handler, which would return the sentinel
"[Decryption Error]", only catches exceptions outside ValueError and
TypeError, and no decoding step raises one; accordingly the embedding has
no path to the sentinel. -/

/-- encrypt from src/utils.py: empty input returned unchanged; otherwise
serialize nonce, authentication tag and ciphertext as three
colon-separated hex fields; on an exception inside the try block (exc),
return the plaintext unchanged. -/
def encrypt (E : ExternalCrypto) (nonce : List Nat) (exc : Bool) (text : String) : String :=
  if text = "" then text
  else if exc then text
  else
    let ct := (E.aeadEnc nonce (E.utf8Enc text)).1
    let tag := (E.aeadEnc nonce (E.utf8Enc text)).2
    ⟨hexOfBytes nonce ++ ':' :: (hexOfBytes tag ++ ':' :: hexOfBytes ct)⟩

/-- decrypt from src/utils.py: empty input returned unchanged; a value
that does not split on ':' into exactly 3 fields is legacy plaintext,
returned unchanged; then hex-decode nonce, tag and ciphertext (ValueError
returns the input), run authenticated decryption (a MAC failure returns
the input) and UTF-8 decode the result (UnicodeDecodeError is a
ValueError, so this too returns the input). -/
def decrypt (E : ExternalCrypto) (stored : String) : String :=
  if stored = "" then stored
  else
    match splitOnChar ':' stored.data with
    | [f1, f2, f3] =>
      match fromHex f1, fromHex f2, fromHex f3 with
      | some iv, some tag, some ct =>
        match E.aeadDec iv ct tag with
        | some pbytes =>
          match E.utf8Dec pbytes with
          | some s => s
          | none => stored
        | none => stored
      | _, _, _ => stored
    | _ => stored

/-! ## parse_timezone_offset (src/utils.py lines 54-77)

The source matches the anchored regular expression
`([+-])(\d escaped 1,2)(optional: colon? two digits)$` and then rejects
hours above 14 or minutes above 59.  The embedding spells out the
backtracking of the greedy 1-or-2-digit hour group: two hour digits are
tried first, and when the rest of the string cannot complete the match the
engine retries with one hour digit. -/

/-- Decimal value of a digit character. -/
def dv (c : Char) : Nat := c.toNat - 48

/-- Matches the regex tail after the hour digits: nothing, two digits, or a
colon and two digits; the captured minutes, none when the minutes group is
absent. -/
def tzAfterHour : List Char → Option (Option Nat)
  | [] => some none
  | [a, b] =>
    if a.isDigit && b.isDigit then some (some (10 * dv a + dv b)) else none
  | [c, a, b] =>
    if c = ':' && a.isDigit && b.isDigit then some (some (10 * dv a + dv b))
    else none
  | _ => none

/-- The anchored match of `([+-])(hour digits)(optional minutes)$`: a sign,
then a greedy 1-or-2-digit hour (two digits tried first, one digit on
backtracking), then `tzAfterHour`.  Gives (negative sign, hours, minutes). -/
def tzMatch (l : List Char) : Option (Bool × Nat × Nat) :=
  match l with
  | s :: h1 :: rest =>
    if (s = '+' || s = '-') && h1.isDigit then
      let two : Option (Nat × Option Nat) :=
        match rest with
        | h2 :: rest2 =>
          if h2.isDigit then
            (tzAfterHour rest2).map (fun m => (10 * dv h1 + dv h2, m))
          else none
        | [] => none
      let hm : Option (Nat × Option Nat) :=
        match two with
        | some r => some r
        | none => (tzAfterHour rest).map (fun m => (dv h1, m))
      hm.map (fun r => (s = '-', r.1, r.2.getD 0))
    else none
  | _ => none

/-- parse_timezone_offset from src/utils.py, the resulting fixed offset
reported in signed minutes: empty input is falsy and gives none; a failed
regex match gives none; hours above 14 or minutes above 59 give none. -/
def parse_timezone_offset (s : String) : Option Int :=
  if s = "" then none
  else
    match tzMatch s.data with
    | none => none
    | some (neg, h, m) =>
      if h > 14 || m > 59 then none
      else some ((if neg then -1 else 1) * (h * 60 + m : Nat))

/-- Spelled out from the claim: a required sign, 1-2 digit hours with
hours at most 14, and an optional 2-digit minutes field, with or without a
colon, with minutes at most 59.  Written by enumerating the six admissible
string lengths and shapes. -/
def tzShape (l : List Char) : Bool :=
  match l with
  | [s, h] => (s = '+' || s = '-') && h.isDigit && dv h ≤ 14
  | [s, h1, h2] =>
    (s = '+' || s = '-') && h1.isDigit && h2.isDigit && 10 * dv h1 + dv h2 ≤ 14
  | [s, h, a, b] =>
    (s = '+' || s = '-') && h.isDigit && a.isDigit && b.isDigit &&
      dv h ≤ 14 && 10 * dv a + dv b ≤ 59
  | [s, h1, x, a, b] =>
    (s = '+' || s = '-') && h1.isDigit && a.isDigit && b.isDigit &&
      ((x = ':' && dv h1 ≤ 14 && 10 * dv a + dv b ≤ 59) ||
       (x.isDigit && 10 * dv h1 + dv x ≤ 14 && 10 * dv a + dv b ≤ 59))
  | [s, h1, h2, c, a, b] =>
    (s = '+' || s = '-') && h1.isDigit && h2.isDigit && c = ':' &&
      a.isDigit && b.isDigit && 10 * dv h1 + dv h2 ≤ 14 && 10 * dv a + dv b ≤ 59
  | _ => false

/-! ## parse_duration_to_minutes (src/utils.py lines 79-100)

The source lower-cases and strips the input, then tries three patterns in
order with re.search: a number before an hour unit (minutes are
int(number * 60)), a number before a minute unit (int(number)), and a bare
number anchored on both sides (int(number)); int() truncates toward zero.
A pattern can match while float() raises on its captured group (for
instance "1..2 h"); the surrounding try block then returns None without
trying the later patterns, which the embedding mirrors by propagating the
conversion failure.

`searchNumberUnit` embeds re.search for `(number run)(spaces)(unit)`: the
engine tries every start position left to right; at a digit-or-dot it
captures the maximal run (backtracking the run shorter never helps, since
the units start with a letter and a shorter run leaves the engine at a
digit or dot), skips spaces, and requires one of the unit alternatives,
tried in the order written in the source. -/

/-- Characters matched by the number class of the duration regexes: digits
and the dot. -/
def digitsDot (c : Char) : Bool := c.isDigit || c = '.'

/-- Leftmost capture of a maximal digit-or-dot run whose following
whitespace is followed by one of the unit alternatives. -/
def searchNumberUnit (units : List (List Char)) : List Char → Option (List Char)
  | [] => none
  | c :: rest =>
    if digitsDot c then
      let run := (c :: rest).takeWhile digitsDot
      let after := ((c :: rest).dropWhile digitsDot).dropWhile (fun a => isPySpace a)
      if units.any (fun u => u.isPrefixOf after) then some run
      else searchNumberUnit units rest
    else searchNumberUnit units rest

/-- Numeric value of a digit list. -/
def digitsVal (l : List Char) : Nat := l.foldl (fun a c => 10 * a + dv c) 0

/-- Python float() on the captured digit-or-dot run, as an exact pair
(numerator, power-of-ten denominator): an optional integer part, an
optional dot, an optional fractional part, with at least one digit
somewhere; none models the ValueError float() raises otherwise (for
instance on "." or "1..2").  Python computes with binary doubles where
this embedding is exact decimal arithmetic; the two truncate to the same
integer whenever the decimal value is an integer below 2 to the 53rd (so
on every all-digit run of at most 15 digits, and after the hour branch
multiplies by 60, of at most 14) and whenever the decimal value is more
than one part in 2 to the 52nd away from an integer, as in every concrete
input a theorem below evaluates; a boundary case such as "2.9 hours",
where the double product 173.99999999999997 truncates below the exact
174, is outside what the theorems state. -/
def pyFloatParts (l : List Char) : Option (Nat × Nat) :=
  let intPart := l.takeWhile Char.isDigit
  match l.drop intPart.length with
  | [] => if intPart = [] then none else some (digitsVal intPart, 1)
  | '.' :: frac =>
    if frac.all Char.isDigit && (intPart ≠ [] || frac ≠ []) then
      some (digitsVal intPart * 10 ^ frac.length + digitsVal frac, 10 ^ frac.length)
    else none
  | _ => none

/-- Unit alternatives of the hour pattern, in source order. -/
def hourUnits : List (List Char) := [('h' :: ('o' :: ('u' :: ('r' :: [])))), ['h', 'r'], ['h']]

/-- Unit alternatives of the minute pattern, in source order. -/
def minuteUnits : List (List Char) := [(['m', 'i', 'n', 'u', 't', 'e']), ['m', 'i', 'n'], ['m']]

/-- Body of parse_duration_to_minutes over the lower-cased stripped
character list: hour pattern first (int(number * 60), truncating), then
minute pattern (int(number)), then a fully anchored bare number
(int(number)); none when no pattern matches or float() raises. -/
def parseDurationCore (l : List Char) : Option Nat :=
  match searchNumberUnit hourUnits l with
  | some run => (pyFloatParts run).map (fun p => p.1 * 60 / p.2)
  | none =>
    match searchNumberUnit minuteUnits l with
    | some run => (pyFloatParts run).map (fun p => p.1 / p.2)
    | none =>
      if l ≠ [] && l.all digitsDot then
        (pyFloatParts l).map (fun p => p.1 / p.2)
      else none

/-- parse_duration_to_minutes from src/utils.py. -/
def parse_duration_to_minutes (s : String) : Option Nat :=
  parseDurationCore (pyStrip (pyLower s.data))

/-! ## parse_local_time_to_naive_datetime (src/utils.py lines 102-136)

The source upper-cases the stripped input and tries the strptime formats
"%H:%M", "%I:%M%p" and "%I%p" in order; the first one that consumes the
whole string wins.  CPython's strptime compiles each directive to a
value-aware alternation — %H to (2[0-3]|[0-1]d|d), %M to ([0-5]d|d),
%I to (1[0-2]|0[1-9]|[1-9]) and %p, on the upper-cased input, to (AM|PM) —
tried left to right with backtracking, and then rejects leftover input.
The embedding enumerates each directive's possible captures in that order
and keeps the first full parse.  The parsed hour and minute then replace
the hour and minute of local now (seconds and microseconds zeroed); a
result strictly before now gains one day. -/

/-- Captures of strptime's %H (hour 00-23, 1 or 2 digits), in alternation
order, each with the remaining input. -/
def candsH : List Char → List (Nat × List Char)
  | a :: b :: r =>
    (if a = '2' && ('0' ≤ b && b ≤ '3') then [(20 + dv b, r)] else []) ++
    (if ('0' ≤ a && a ≤ '1') && b.isDigit then [(10 * dv a + dv b, r)] else []) ++
    (if a.isDigit then [(dv a, b :: r)] else [])
  | [a] => if a.isDigit then [(dv a, [])] else []
  | [] => []

/-- Captures of strptime's %M (minute 00-59, 1 or 2 digits), in
alternation order. -/
def candsM : List Char → List (Nat × List Char)
  | a :: b :: r =>
    (if ('0' ≤ a && a ≤ '5') && b.isDigit then [(10 * dv a + dv b, r)] else []) ++
    (if a.isDigit then [(dv a, b :: r)] else [])
  | [a] => if a.isDigit then [(dv a, [])] else []
  | [] => []

/-- Captures of strptime's %I (hour 01-12, 1 or 2 digits), in alternation
order. -/
def candsI : List Char → List (Nat × List Char)
  | a :: b :: r =>
    (if a = '1' && ('0' ≤ b && b ≤ '2') then [(10 + dv b, r)] else []) ++
    (if a = '0' && ('1' ≤ b && b ≤ '9') then [(dv b, r)] else []) ++
    (if '1' ≤ a && a ≤ '9' then [(dv a, b :: r)] else [])
  | [a] => if '1' ≤ a && a ≤ '9' then [(dv a, [])] else []
  | [] => []

/-- Captures of %p on the upper-cased input: true for PM. -/
def candsP : List Char → List (Bool × List Char)
  | 'A' :: 'M' :: r => [(false, r)]
  | 'P' :: 'M' :: r => [(true, r)]
  | _ => []

/-- strptime with format "%H:%M": full-input match of hour, colon, minute. -/
def strptimeHM (l : List Char) : Option (Nat × Nat) :=
  (candsH l).findSome? fun hc =>
    match hc.2 with
    | ':' :: r2 => (candsM r2).findSome? fun mc =>
        if mc.2 = [] then some (hc.1, mc.1) else none
    | _ => none

/-- strptime with format "%I:%M%p": 12-hour clock with minutes; the hour
is normalized as time() reports it (12AM is 0, 12PM is 12). -/
def strptimeIMp (l : List Char) : Option (Nat × Nat) :=
  (candsI l).findSome? fun ic =>
    match ic.2 with
    | ':' :: r2 => (candsM r2).findSome? fun mc =>
        (candsP mc.2).findSome? fun pc =>
          if pc.2 = [] then
            some ((if pc.1 then 12 + ic.1 % 12 else ic.1 % 12), mc.1)
          else none
    | _ => none

/-- strptime with format "%I%p": 12-hour clock without minutes. -/
def strptimeIp (l : List Char) : Option (Nat × Nat) :=
  (candsI l).findSome? fun ic =>
    (candsP ic.2).findSome? fun pc =>
      if pc.2 = [] then
        some ((if pc.1 then 12 + ic.1 % 12 else ic.1 % 12), 0)
      else none

/-- parse_local_time_to_naive_datetime from src/utils.py, with local now
given in microseconds since local midnight: the first of the three
formats that parses gives hour and minute; the result replaces now's hour
and minute with seconds zeroed, and moves to tomorrow when strictly
before now.  The returned naive instant is in microseconds since today's
local midnight (a value past one day means tomorrow). -/
def parse_local_time_to_naive_datetime (timeStr : String) (nowUs : Nat) : Option Nat :=
  let l := pyUpper (pyStrip timeStr.data)
  let parsed :=
    match strptimeHM l with
    | some hm => some hm
    | none =>
      match strptimeIMp l with
      | some hm => some hm
      | none => strptimeIp l
  parsed.map fun hm =>
    let task := hm.1 * hourUs + hm.2 * minuteUs
    if task < nowUs then task + dayUs else task

/-! ## The task-command regular expression (src/handlers.py line 157)

The source matches `i want to (.*) for (.*)(?: at (.*))?` with re.match
and re.IGNORECASE.  Backtracking order makes the outcome of the two
greedy groups definite:

* the first `(.*)` tries the longest prefix first, so the literal " for "
  is taken at its last occurrence, every later position making the rest
  of the pattern fail no sooner;
* the second `(.*)` then swallows the whole remainder; the optional group
  `(?: at (.*))?` faces the end of the input, where the literal " at "
  cannot match, so it matches empty — and since re.match needs only a
  prefix match, the overall match succeeds at once and the engine never
  backtracks into the second group.  The third capture group is therefore
  always absent, whatever the input.

The embedding lower-cases the text (re.IGNORECASE over ASCII text) and
returns the captured groups lower-cased; the handler only tests the title
for emptiness and lower-cases the duration before parsing it, so the case
of the captures is immaterial downstream. -/

/-- Match a literal prefix, giving the rest of the input. -/
def stripLit : List Char → List Char → Option (List Char)
  | [], l => some l
  | _ :: _, [] => none
  | p :: ps, c :: cs => if p = c then stripLit ps cs else none

/-- Greedy search for the split at `(.*) for ...`: positions are tried
from the longest first-group capture downward; the first position where
the literal " for " matches wins.  Gives (first group, rest after the
literal). -/
def forSplitFrom (l : List Char) : Nat → Option (List Char × List Char)
  | 0 =>
    match stripLit ([' ', 'f', 'o', 'r', ' ']) l with
    | some rest => some ([], rest)
    | none => none
  | k + 1 =>
    match stripLit ([' ', 'f', 'o', 'r', ' ']) (l.drop (k + 1)) with
    | some rest => some (l.take (k + 1), rest)
    | none => forSplitFrom l k

/-- The definite outcome of `(.*)(?: at (.*))?` against the remainder: the
greedy second group takes everything and the optional third group matches
empty (see the section comment). -/
def tailMatch (l : List Char) : List Char × Option (List Char) := (l, none)

/-- The full match of `i want to (.*) for (.*)(?: at (.*))?` with
re.IGNORECASE: the three captured groups, the third always absent. -/
def commandMatch (text : String) : Option (String × String × Option String) :=
  let l := pyLower text.data
  match stripLit (['i', ' ', 'w', 'a', 'n', 't', ' ', 't', 'o', ' ']) l with
  | none => none
  | some rest =>
    match forSplitFrom rest rest.length with
    | none => none
    | some groups =>
      let tm := tailMatch groups.2
      some (⟨groups.1⟩, ⟨tm.1⟩, tm.2.map (fun g => (⟨g⟩ : String)))

/-- Outcome of the command-dispatch prefix of handle_ai_task_creation
(src/handlers.py lines 157-216), for a linked profile with a valid
timezone: which creation path runs, after the title and duration checks. -/
inductive CreationPath where
  | notACommand
  | missingTitle
  | badDuration
  | explicitTime (timeStr : String) (durationMinutes : Nat)
  | autoSlot (durationMinutes : Nat)
deriving DecidableEq

/-- The dispatch of handle_ai_task_creation: no regex match ignores the
message; an empty stripped title errors; an unparseable duration errors;
a present third group leads to explicit-time creation, an absent one to
auto-slot creation. -/
def taskCreationPath (text : String) : CreationPath :=
  match commandMatch text with
  | none => CreationPath.notACommand
  | some groups =>
    if pyStrip groups.1.data = [] then CreationPath.missingTitle
    else
      match parse_duration_to_minutes ⟨pyStrip groups.2.1.data⟩ with
      | none => CreationPath.badDuration
      | some d =>
        match groups.2.2 with
        | some ts => CreationPath.explicitTime ⟨pyStrip ts.data⟩ d
        | none => CreationPath.autoSlot d

/-! ## The auto-slot allocator (src/handlers.py lines 219-306)

Working over microseconds since the user's local midnight: the window is
today at start hour to today at end hour; the search start is the later
of local now and the window start, snapped to a whole minute (plus one
minute when seconds or microseconds were nonzero) and then forward to a
15-minute boundary; candidates advance by 15 minutes while strictly
before the window end, stop at the first one whose end would pass the
window end, and collect those free of conflicts; random.choice then picks
among the collected starts, modelled by an arbitrary choice index. -/

/-- Busy interval of one existing task (src/handlers.py lines 243-256):
start as fetched, end start plus the stored duration in minutes — with
Python's `or 30` supplying 30 when the stored duration is absent (None)
or zero (both falsy). -/
def taskBusyInterval (startUs : Nat) (durationMinutes : Option Nat) : Nat × Nat :=
  let d := match durationMinutes with
    | none => 30
    | some k => if k = 0 then 30 else k
  (startUs, startUs + d * minuteUs)

/-- Inputs of one allocation: local now, the working-hours window, the
desired duration in minutes and the busy intervals of today's tasks. -/
structure AllocInput where
  now : Nat
  startHour : Nat
  endHour : Nat
  duration : Nat
  busy : List (Nat × Nat)

/-- Today at the window's start hour. -/
def todayStartUs (i : AllocInput) : Nat := i.startHour * hourUs

/-- Today at the window's end hour. -/
def todayEndUs (i : AllocInput) : Nat := i.endHour * hourUs

/-- search_start_time = max(now_local, today_start_dt). -/
def searchStart (i : AllocInput) : Nat := max i.now (todayStartUs i)

/-- The snapping of the search start (src/handlers.py lines 267-273):
zero seconds and microseconds, add one minute when they were nonzero,
then add up to 14 minutes to reach a multiple of 15 minutes past the
hour. -/
def snapStart (t : Nat) : Nat :=
  let tm := (t / minuteUs) * minuteUs
  let tm := if t % minuteUs > 0 then tm + minuteUs else tm
  let m := (tm / minuteUs) % 60
  if m % 15 > 0 then tm + (15 - m % 15) * minuteUs else tm

/-- The conflict test of one candidate against the busy list
(src/handlers.py lines 282-287): overlap when candidate start is before a
busy end and candidate end is after that busy start. -/
def hasConflict (s e : Nat) (busy : List (Nat × Nat)) : Bool :=
  busy.any (fun b => s < b.2 && e > b.1)

/-- The candidate loop (src/handlers.py lines 275-292), with a fuel bound
on iterations: the loop advances by 15 minutes each round, so any window
inside one day takes at most 97 rounds and the fuel of 1000 that
`validSlots` passes is never exhausted first.  While the candidate is
strictly before the window end: a candidate whose end passes the window
end stops the loop; otherwise the candidate is collected unless it
conflicts. -/
def slotLoop (fuel : Nat) (cur dEnd durUs : Nat) (busy : List (Nat × Nat)) : List Nat :=
  match fuel with
  | 0 => []
  | fuel' + 1 =>
    if cur < dEnd then
      if cur + durUs > dEnd then []
      else
        let rest := slotLoop fuel' (cur + stepUs) dEnd durUs busy
        if hasConflict cur (cur + durUs) busy then rest else cur :: rest
    else []

/-- All candidate starts the allocation collects as valid_slots. -/
def validSlots (i : AllocInput) : List Nat :=
  slotLoop 1000 (snapStart (searchStart i)) (todayEndUs i) (i.duration * minuteUs) i.busy

/-- Outcome of auto-slot creation: when valid_slots is empty the handler
reports no free slot and returns before any insert; otherwise
random.choice picks an element, modelled by an arbitrary index. -/
def autoSlotOutcome (i : AllocInput) (pick : Nat) : Option Nat :=
  match validSlots i with
  | [] => none
  | s :: rest => some ((s :: rest).getD (pick % (s :: rest).length) s)

/-! ## The reminder window (src/jobs.py lines 30-39, src/db.py lines 97-116)

Local now with seconds and microseconds zeroed, plus 30 minutes, opens a
one-minute lookahead; get_tasks_for_reminder keeps the user's
non-completed tasks with scheduled time at or past the window start and
strictly before its end. -/

/-- One stored task row as the reminder query reads it. -/
structure TaskRow where
  scheduled_time : Nat
  is_completed : Bool
deriving DecidableEq

/-- The lookahead interval of check_and_send_reminders: now is truncated
to the whole minute, the window is [now + 30min, now + 31min). -/
def reminderWindow (nowUs : Nat) : Nat × Nat :=
  let rounded := (nowUs / minuteUs) * minuteUs
  (rounded + 30 * minuteUs, rounded + 30 * minuteUs + minuteUs)

/-- get_tasks_for_reminder from src/db.py, over the user's task rows: the
query keeps rows with is_completed false, scheduled time at or past the
window start (gte) and strictly before the window end (lt). -/
def get_tasks_for_reminder (tasks : List TaskRow) (startNaive endNaive : Nat) : List TaskRow :=
  tasks.filter (fun t => !t.is_completed && startNaive ≤ t.scheduled_time
    && t.scheduled_time < endNaive)

/-! ## A concrete instance of the external bundle

Witness theorems evaluate the wrappers at concrete inputs, which needs a
computable instance of the external contract: characters encode as three
bytes in base 256; encryption adds one to each byte modulo 256 under a
constant one-byte tag.  The instance only has to satisfy the contract
fields; it stands in for the external library in concrete evaluations. -/

/-- Toy text encoding: four bytes per character, base 256, little end
first. -/
def toyEncBytes : List Char → List Nat
  | [] => []
  | c :: rest =>
    c.toNat % 256 :: (c.toNat / 256) % 256 :: (c.toNat / 65536) % 256 ::
      (c.toNat / 16777216) % 256 :: toyEncBytes rest

/-- Toy text decoding: groups of four bytes back to characters; none on
a byte count that is not a multiple of four. -/
def toyDecChars : List Nat → Option (List Char)
  | [] => some []
  | a :: b :: c2 :: d :: rest =>
    (toyDecChars rest).map
      (fun l => Char.ofNat (a + 256 * b + 65536 * c2 + 16777216 * d) :: l)
  | _ => none

/-- The concrete external bundle. -/
def toyCrypto : ExternalCrypto where
  utf8Enc s := toyEncBytes s.data
  utf8Dec bs := (toyDecChars bs).map (fun l => ⟨l⟩)
  aeadEnc _nonce p := (p.map (fun b => (b + 1) % 256), [7])
  aeadDec _nonce ct tag :=
    if tag = [7] then some (ct.map (fun b => (b + 255) % 256)) else none
  utf8_roundtrip := by
    intro s
    obtain ⟨l⟩ := s
    rw [Option.map_eq_some']
    refine ⟨l, ?_, rfl⟩
    induction l with
    | nil => rfl
    | cons c rest ih =>
      have hv : c.toNat < 4294967296 := c.val.val.isLt
      have hc : Char.ofNat (c.toNat % 256 + 256 * (c.toNat / 256 % 256)
          + 65536 * (c.toNat / 65536 % 256) + 16777216 * (c.toNat / 16777216 % 256)) = c := by
        have harg : c.toNat % 256 + 256 * (c.toNat / 256 % 256)
            + 65536 * (c.toNat / 65536 % 256)
            + 16777216 * (c.toNat / 16777216 % 256) = c.toNat := by omega
        rw [harg, Char.ofNat_toNat]
      simp [toyEncBytes, toyDecChars, ih, hc]
  utf8_valid := by
    intro s
    obtain ⟨l⟩ := s
    simp only
    induction l with
    | nil => intro b hb; simp [toyEncBytes] at hb
    | cons c rest ih =>
      intro b hb
      simp only [toyEncBytes, List.mem_cons] at hb
      rcases hb with h | h | h | h | h
      · omega
      · omega
      · omega
      · omega
      · exact ih b h
  utf8_nonempty := by
    intro s hs
    obtain ⟨l⟩ := s
    cases l with
    | nil => simp at hs
    | cons c rest => simp [toyEncBytes]
  aead_ct_valid := by
    intro n p _hp b hb
    simp only [List.mem_map] at hb
    obtain ⟨a, _, rfl⟩ := hb
    omega
  aead_tag_valid := by
    intro n p _hp b hb
    simp only [List.mem_singleton] at hb
    omega
  aead_roundtrip := by
    intro n p hp
    simp only [if_true, Option.some_inj, List.map_map]
    induction p with
    | nil => rfl
    | cons b rest ih =>
      have hb : b < 256 := hp b (List.mem_cons_self b rest)
      have ihr := ih (fun x hx => hp x (List.mem_cons_of_mem b hx))
      simp only [List.map_cons, ihr]
      congr 1
      simp only [Function.comp_apply]
      omega

/-! # Theorems -/

/-! ## C1: the time clause of a task command -/

/-- Whatever the input, the third capture group of the task-command match
is absent: the greedy second group swallows any " at ..." clause. -/
theorem commandMatch_third_group_none (text : String)
    (groups : String × String × Option String)
    (h : commandMatch text = some groups) : groups.2.2 = none := by
  simp only [commandMatch] at h
  split at h
  · exact absurd h (by simp)
  · split at h
    · exact absurd h (by simp)
    · simp only [tailMatch, Option.map_none', Option.some_inj] at h
      rw [← h]

/-- C1: the claim asserts that a command carrying a parseable " at " time
clause uses explicit-time creation with the parsed local wall-clock time
stored; in the code the clause never reaches the explicit path — the
third capture group of the regex on src/handlers.py line 157 is always
absent, the " at " text is swallowed into the duration group, and the
example command "I want to write report for 1 hour at 14:00" dispatches
to auto-slot creation with duration 60 (the hour pattern matches inside
"1 hour at 14:00"); had the clause been extracted,
parse_local_time_to_naive_datetime would have stored local 14:00 (today
at 10:00 local). -/
theorem c1_time_clause_never_explicit :
    (∀ text groups, commandMatch text = some groups → groups.2.2 = none) ∧
    commandMatch ("I want to write report for 1 hour at 14:00")
      = some (("write report", "1 hour at 14:00", none)) ∧
    taskCreationPath ("I want to write report for 1 hour at 14:00")
      = CreationPath.autoSlot 60 ∧
    parse_local_time_to_naive_datetime ("14:00") (10 * hourUs)
      = some (14 * hourUs) := by
  refine ⟨commandMatch_third_group_none, by decide, by decide, by decide⟩

/-- Witness for C1 at a concrete command. -/
theorem c1_witness :
    (("relax", ("2 hours", (none : Option String))) : String × String × Option String).2.2
      = none :=
  c1_time_clause_never_explicit.1 ("I want to relax for 2 hours") _ (by decide)

/-! ## C2: busy intervals of existing tasks -/

/-- Counterexample to C2 as stated: a stored duration of 15 minutes
produces the busy interval of 15 minutes (Python's `or 30` only replaces
a falsy value), not the 30-minute interval the claimed
max(taskDuration, 30) would give. -/
theorem c2_counterexample :
    taskBusyInterval (9 * hourUs) (some 15)
      = (9 * hourUs, 9 * hourUs + 15 * minuteUs) ∧
    (taskBusyInterval (9 * hourUs) (some 15)
      = (9 * hourUs, 9 * hourUs + max 15 30 * minuteUs) → False) := by
  decide

/-- C2 amended: the busy interval of an existing task is
[start, start + d) where d is the stored duration when it is present and
nonzero, and 30 minutes when it is absent or zero; a nonzero stored
duration below 30 blocks only its own length.  The difference is
observable in allocation: with a 15-minute task at 09:00, the 09:15
candidate is collected, while under the claimed 30-minute floor it would
conflict. -/
theorem c2_busy_interval_amended :
    (∀ s, taskBusyInterval s none = (s, s + 30 * minuteUs)) ∧
    (∀ s, taskBusyInterval s (some 0) = (s, s + 30 * minuteUs)) ∧
    (∀ s d, 0 < d → taskBusyInterval s (some d) = (s, s + d * minuteUs)) ∧
    (9 * hourUs + 15 * minuteUs) ∈
      validSlots ⟨9 * hourUs, 9, 17, 30, [taskBusyInterval (9 * hourUs) (some 15)]⟩ ∧
    ((9 * hourUs + 15 * minuteUs) ∈
      validSlots ⟨9 * hourUs, 9, 17, 30, [(9 * hourUs, 9 * hourUs + 30 * minuteUs)]⟩
      → False) := by
  refine ⟨fun s => rfl, fun s => rfl, fun s d hd => ?_, by decide, by decide⟩
  simp only [taskBusyInterval]
  rw [if_neg (by omega)]

/-- Witness for C2 at a concrete nonzero duration. -/
theorem c2_witness :
    taskBusyInterval (10 * hourUs) (some 45)
      = (10 * hourUs, 10 * hourUs + 45 * minuteUs) :=
  c2_busy_interval_amended.2.2.1 (10 * hourUs) 45 (by decide)

/-! ## C3: the slots the allocator collects -/

/-- Every collected slot lies at or after the loop's start, keeps the
start's phase modulo 15 minutes, begins strictly before the window end,
ends at or before it and is conflict-free. -/
theorem slotLoop_sound : ∀ (fuel cur dEnd durUs : Nat) (busy : List (Nat × Nat)) (s : Nat),
    s ∈ slotLoop fuel cur dEnd durUs busy →
    cur ≤ s ∧ s % stepUs = cur % stepUs ∧ s < dEnd ∧ s + durUs ≤ dEnd ∧
      hasConflict s (s + durUs) busy = false := by
  intro fuel
  induction fuel with
  | zero => intro cur dEnd durUs busy s hs; simp [slotLoop] at hs
  | succ f ih =>
    intro cur dEnd durUs busy s hs
    simp only [slotLoop] at hs
    by_cases h1 : cur < dEnd
    · rw [if_pos h1] at hs
      by_cases h2 : cur + durUs > dEnd
      · rw [if_pos h2] at hs; simp at hs
      · rw [if_neg h2] at hs
        by_cases h3 : hasConflict cur (cur + durUs) busy = true
        · rw [if_pos h3] at hs
          obtain ⟨hc, hmod, hlt, hle, hconf⟩ := ih (cur + stepUs) dEnd durUs busy s hs
          refine ⟨by omega, ?_, hlt, hle, hconf⟩
          rw [hmod, Nat.add_mod_right]
        · rw [if_neg h3] at hs
          rcases List.mem_cons.mp hs with rfl | hs'
          · exact ⟨Nat.le_refl _, rfl, h1, by omega,
              by rwa [Bool.not_eq_true] at h3⟩
          · obtain ⟨hc, hmod, hlt, hle, hconf⟩ := ih (cur + stepUs) dEnd durUs busy s hs'
            refine ⟨by omega, ?_, hlt, hle, hconf⟩
            rw [hmod, Nat.add_mod_right]
    · rw [if_neg h1] at hs; simp at hs

/-- The snapped search start is at or past the time it snaps, lies on a
15-minute boundary, and is less than one full stride past it. -/
theorem snapStart_spec (t : Nat) :
    t ≤ snapStart t ∧ snapStart t % stepUs = 0 ∧ snapStart t < t + stepUs := by
  simp only [snapStart, stepUs, minuteUs]
  split <;> split <;> omega

/-- A time already on a 15-minute boundary is kept by the snap. -/
theorem snapStart_of_aligned (t : Nat) (h : t % stepUs = 0) : snapStart t = t := by
  simp only [stepUs, minuteUs] at h
  simp only [snapStart, minuteUs]
  split <;> split <;> omega

/-- The loop collects nothing when the window end is already at or before
the current candidate. -/
theorem slotLoop_nil_of_past (fuel cur dEnd durUs : Nat) (busy : List (Nat × Nat))
    (h : dEnd ≤ cur) : slotLoop fuel cur dEnd durUs busy = [] := by
  cases fuel with
  | zero => rfl
  | succ f => simp only [slotLoop]; rw [if_neg (by omega)]

/-- The loop collects nothing when one busy interval runs from at or
before every candidate to the window end and the duration is positive:
every candidate then conflicts. -/
theorem slotLoop_nil_of_cover : ∀ (fuel cur dEnd durUs : Nat) (busy : List (Nat × Nat))
    (ts : Nat), (ts, dEnd) ∈ busy → ts ≤ cur → 0 < durUs →
    slotLoop fuel cur dEnd durUs busy = [] := by
  intro fuel
  induction fuel with
  | zero => intros; rfl
  | succ f ih =>
    intro cur dEnd durUs busy ts hmem hts hdur
    simp only [slotLoop]
    by_cases h1 : cur < dEnd
    · rw [if_pos h1]
      by_cases h2 : cur + durUs > dEnd
      · rw [if_pos h2]
      · rw [if_neg h2]
        have hconf : hasConflict cur (cur + durUs) busy = true := by
          unfold hasConflict
          rw [List.any_eq_true]
          refine ⟨(ts, dEnd), hmem, ?_⟩
          simp only [Bool.and_eq_true, decide_eq_true_eq]
          omega
        rw [if_pos hconf]
        exact ih (cur + stepUs) dEnd durUs busy ts hmem (by simp [stepUs, minuteUs]; omega) hdur
    · rw [if_neg h1]

/-- C3: every slot the allocator collects is 15-minute aligned, at or
after the snapped search start, fits before the window end and overlaps
no busy interval under the strict overlap test; the snap is a ceiling to
the next 15-minute boundary that keeps aligned times; a busy interval
covering the whole window (with a positive duration), or a now already
past the window end, leaves valid_slots empty; an empty valid_slots
means the handler reports no free slot and inserts nothing; and any slot
random.choice returns is one of the collected valid_slots. -/
theorem c3_allocator_slots :
    (∀ (i : AllocInput) (s : Nat), s ∈ validSlots i →
      s % stepUs = 0 ∧ snapStart (searchStart i) ≤ s ∧
      s + i.duration * minuteUs ≤ todayEndUs i ∧
      ∀ b ∈ i.busy, ¬(s < b.2 ∧ s + i.duration * minuteUs > b.1)) ∧
    (∀ t, t ≤ snapStart t ∧ snapStart t % stepUs = 0 ∧ snapStart t < t + stepUs) ∧
    (∀ t, t % stepUs = 0 → snapStart t = t) ∧
    (∀ i : AllocInput, (todayStartUs i, todayEndUs i) ∈ i.busy → 0 < i.duration →
      validSlots i = []) ∧
    (∀ i : AllocInput, todayEndUs i ≤ i.now → validSlots i = []) ∧
    (∀ (i : AllocInput) (pick : Nat), validSlots i = [] → autoSlotOutcome i pick = none) ∧
    (∀ (i : AllocInput) (pick s : Nat), autoSlotOutcome i pick = some s →
      s ∈ validSlots i) := by
  refine ⟨?_, snapStart_spec, snapStart_of_aligned, ?_, ?_, ?_, ?_⟩
  · intro i s hs
    obtain ⟨hc, hmod, _, hle, hconf⟩ :=
      slotLoop_sound 1000 (snapStart (searchStart i)) (todayEndUs i)
        (i.duration * minuteUs) i.busy s hs
    have halign := (snapStart_spec (searchStart i)).2.1
    refine ⟨by omega, hc, hle, ?_⟩
    intro b hb hover
    have : hasConflict s (s + i.duration * minuteUs) i.busy = true := by
      unfold hasConflict
      rw [List.any_eq_true]
      refine ⟨b, hb, ?_⟩
      simp only [Bool.and_eq_true, decide_eq_true_eq]
      omega
    rw [this] at hconf
    exact absurd hconf (by simp)
  · intro i hmem hdur
    unfold validSlots
    refine slotLoop_nil_of_cover 1000 _ _ _ _ (todayStartUs i) hmem ?_ ?_
    · have h1 : todayStartUs i ≤ searchStart i := Nat.le_max_right _ _
      have h2 := (snapStart_spec (searchStart i)).1
      omega
    · simp only [minuteUs]; omega
  · intro i h
    unfold validSlots
    refine slotLoop_nil_of_past 1000 _ _ _ _ ?_
    have h1 : i.now ≤ searchStart i := Nat.le_max_left _ _
    have h2 := (snapStart_spec (searchStart i)).1
    omega
  · intro i pick h
    unfold autoSlotOutcome
    rw [h]
  · intro i pick s hs
    unfold autoSlotOutcome at hs
    cases hv : validSlots i with
    | nil => rw [hv] at hs; exact absurd hs (by simp)
    | cons a rest =>
      rw [hv] at hs
      simp only [Option.some_inj] at hs
      subst hs
      have hlt : pick % (a :: rest).length < (a :: rest).length :=
        Nat.mod_lt _ (by simp)
      rw [List.getD_eq_getElem _ _ hlt]
      exact List.getElem_mem hlt

/-- Witness for C3 at a concrete allocation: now 09:07:30 local, window
09:00 to 17:00, duration 30, one busy interval 10:00 to 10:30; the slot
09:15 is collected; 09:00 is on a boundary and kept by the snap; an
allocation whose busy list covers the window collects nothing and
inserts nothing; an allocation starting at 18:00 collects nothing. -/
theorem c3_witness :
    ((9 * hourUs + 15 * minuteUs) % stepUs = 0 ∧
      snapStart (searchStart ⟨9 * hourUs + 7 * minuteUs + 30 * 1000000, 9, 17, 30,
        [(10 * hourUs, 10 * hourUs + 30 * minuteUs)]⟩) ≤ 9 * hourUs + 15 * minuteUs ∧
      9 * hourUs + 15 * minuteUs + 30 * minuteUs ≤
        todayEndUs ⟨9 * hourUs + 7 * minuteUs + 30 * 1000000, 9, 17, 30,
          [(10 * hourUs, 10 * hourUs + 30 * minuteUs)]⟩ ∧
      ∀ b ∈ [((10 * hourUs : Nat), 10 * hourUs + 30 * minuteUs)],
        ¬(9 * hourUs + 15 * minuteUs < b.2 ∧
          9 * hourUs + 15 * minuteUs + 30 * minuteUs > b.1)) ∧
    snapStart (9 * hourUs) = 9 * hourUs ∧
    validSlots ⟨10 * hourUs, 9, 17, 60, [(9 * hourUs, 17 * hourUs)]⟩ = [] ∧
    validSlots ⟨18 * hourUs, 9, 17, 30, []⟩ = [] ∧
    autoSlotOutcome ⟨10 * hourUs, 9, 17, 60, [(9 * hourUs, 17 * hourUs)]⟩ 5 = none := by
  refine ⟨c3_allocator_slots.1 _ _ (by decide),
    c3_allocator_slots.2.2.1 _ (by decide),
    c3_allocator_slots.2.2.2.1 _ (by decide) (by decide),
    c3_allocator_slots.2.2.2.2.1 _ (by decide),
    c3_allocator_slots.2.2.2.2.2.1 _ 5 (c3_allocator_slots.2.2.2.1 _ (by decide) (by decide))⟩

/-! ## C4, C5: the duration parser -/

/-- The unit search fails when the units' first letter occurs nowhere in
the input: whatever suffix the engine reaches, no alternative can start
there. -/
theorem searchNumberUnit_none (units : List (List Char)) (hd : Char)
    (hu : ∀ u ∈ units, ∃ u', u = hd :: u') :
    ∀ xs : List Char, hd ∉ xs → searchNumberUnit units xs = none := by
  intro xs
  induction xs with
  | nil => intro _; rfl
  | cons c rest ih =>
    intro hmem
    have hrest : hd ∉ rest := fun h => hmem (List.mem_cons_of_mem c h)
    simp only [searchNumberUnit]
    have hany : units.any (fun u => u.isPrefixOf
        (((c :: rest).dropWhile digitsDot).dropWhile (fun a => isPySpace a))) = false := by
      rw [Bool.eq_false_iff]
      intro hTrue
      rw [List.any_eq_true] at hTrue
      obtain ⟨u, humem, hpre⟩ := hTrue
      obtain ⟨u', rfl⟩ := hu u humem
      rw [ List.isPrefixOf_iff_prefix] at hpre
      cases hafter : ((c :: rest).dropWhile digitsDot).dropWhile (fun a => isPySpace a) with
      | nil =>
        rw [hafter] at hpre
        have := List.prefix_nil.mp hpre
        exact absurd this (by simp)
      | cons a t =>
        rw [hafter] at hpre
        obtain ⟨tl, htl⟩ := hpre
        rw [List.cons_append] at htl
        have hha : hd = a := (List.cons.injEq _ _ _ _ ▸ htl).1
        have hsub1 := (List.dropWhile_sublist (l := c :: rest) digitsDot).subset
        have hsub2 := (List.dropWhile_sublist
          (l := (c :: rest).dropWhile digitsDot) (fun a => isPySpace a)).subset
        have hmem' : a ∈ c :: rest :=
          hsub1 (hsub2 (hafter ▸ List.mem_cons_self a t))
        exact hmem (hha ▸ hmem')
    by_cases hc : digitsDot c = true
    · rw [if_pos hc, hany]
      simp only [Bool.false_eq_true, if_false]
      exact ih hrest
    · rw [if_neg hc]
      exact ih hrest

/-- The unit search on a nonempty digit run followed by a unit suffix
captures exactly the run. -/
theorem searchNumberUnit_digits_suffix (units : List (List Char)) (sfx : List Char)
    (l : List Char) (hl : l ≠ []) (hld : ∀ c ∈ l, c.isDigit = true)
    (h1 : sfx.takeWhile digitsDot = [])
    (h1' : sfx.dropWhile digitsDot = sfx)
    (h2 : units.any (fun u => u.isPrefixOf
      (sfx.dropWhile (fun a => isPySpace a))) = true) :
    searchNumberUnit units (l ++ sfx) = some l := by
  cases l with
  | nil => exact absurd rfl hl
  | cons c rest =>
    have hall : ∀ x ∈ c :: rest, digitsDot x = true := by
      intro x hx
      have := hld x hx
      simp [digitsDot, this]
    have hcd : digitsDot c = true := hall c (List.mem_cons_self c rest)
    have htw : (c :: rest).takeWhile digitsDot = c :: rest :=
      List.takeWhile_eq_self_iff.mpr hall
    have hdw : (c :: rest).dropWhile digitsDot = [] :=
      List.dropWhile_eq_nil_iff.mpr hall
    rw [List.cons_append]
    simp only [searchNumberUnit]
    rw [if_pos hcd, ← List.cons_append, List.takeWhile_append, List.dropWhile_append,
      htw, hdw, h1]
    simp [h1', h2]

/-- Python float() on a nonempty all-digit run is its exact integer
value. -/
theorem pyFloatParts_digits (l : List Char) (hl : l ≠ [])
    (hld : ∀ c ∈ l, c.isDigit = true) :
    pyFloatParts l = some (digitsVal l, 1) := by
  have ht : l.takeWhile Char.isDigit = l := List.takeWhile_eq_self_iff.mpr hld
  simp only [pyFloatParts, ht, List.drop_length]
  simp [hl]

/-- The hour unit alternatives all start with the letter h. -/
theorem hourUnits_head : ∀ u ∈ hourUnits, ∃ u', u = 'h' :: u' := by
  intro u hu
  simp only [hourUnits, List.mem_cons, List.not_mem_nil, or_false] at hu
  rcases hu with rfl | rfl | rfl <;> exact ⟨_, rfl⟩

/-- The minute unit alternatives all start with the letter m. -/
theorem minuteUnits_head : ∀ u ∈ minuteUnits, ∃ u', u = 'm' :: u' := by
  intro u hu
  simp only [minuteUnits, List.mem_cons, List.not_mem_nil, or_false] at hu
  rcases hu with rfl | rfl | rfl <;> exact ⟨_, rfl⟩

/-- A digit character is neither h nor m. -/
theorem isDigit_ne_letters (c : Char) (h : c.isDigit = true) : c ≠ 'h' ∧ c ≠ 'm' := by
  constructor <;> rintro rfl <;> simp [Char.isDigit] at h

/-- Counterexample to C4 as stated: on "1.9 m" the parser returns 1
(int() truncates toward zero), not the claimed round(1.9) = 2. -/
theorem c4_counterexample :
    parse_duration_to_minutes ("1.9 m") = some 1 ∧
    (parse_duration_to_minutes ("1.9 m") = some 2 → False) := by
  decide

/-- C4 amended: minutes are computed with int()'s truncation toward zero
rather than rounding — a number before an hour unit gives
int(number times 60), a number before a minute unit or a bare number gives
int(number) — and, as claimed, hour recognition is tried first, the first
match wins, and an input matching no shape is unparseable.  The general
laws are stated on all-digit runs of at most 14 digits, where Python's
binary floats compute the same integers as exact arithmetic; the decimal
examples show the truncation ("1.999 hour" gives 119, not round(119.94) =
120; "1.9 minutes" gives 1, not 2). -/
theorem c4_duration_truncation :
    (∀ s, parse_duration_to_minutes s = parseDurationCore (pyStrip (pyLower s.data))) ∧
    (∀ l : List Char, l ≠ [] → (∀ c ∈ l, c.isDigit = true) → l.length ≤ 14 →
      parseDurationCore (l ++ [' ', 'h', 'o', 'u', 'r']) = some (digitsVal l * 60) ∧
      parseDurationCore (l ++ [' ', 'm', 'i', 'n']) = some (digitsVal l) ∧
      parseDurationCore l = some (digitsVal l)) ∧
    parse_duration_to_minutes ("1.999 hour") = some 119 ∧
    parse_duration_to_minutes ("1.9 minutes") = some 1 ∧
    parse_duration_to_minutes ("2h30m") = some 120 ∧
    parse_duration_to_minutes ("abc") = none := by
  refine ⟨fun s => rfl, ?_, by decide, by decide, by decide, by decide⟩
  intro l hl hld _hlen
  have hnh : 'h' ∉ l := fun hmem => (isDigit_ne_letters 'h' (hld 'h' hmem)).1 rfl
  have hnm : 'm' ∉ l := fun hmem => (isDigit_ne_letters 'm' (hld 'm' hmem)).2 rfl
  have hfp := pyFloatParts_digits l hl hld
  refine ⟨?_, ?_, ?_⟩
  · unfold parseDurationCore
    rw [searchNumberUnit_digits_suffix hourUnits [' ', 'h', 'o', 'u', 'r'] l hl hld
      (by decide) (by decide) (by decide)]
    simp [hfp, Nat.div_one]
  · unfold parseDurationCore
    rw [searchNumberUnit_none hourUnits 'h' hourUnits_head (l ++ [' ', 'm', 'i', 'n'])
      (by
        intro hmem
        rcases List.mem_append.mp hmem with h | h
        · exact hnh h
        · simp at h),
      searchNumberUnit_digits_suffix minuteUnits [' ', 'm', 'i', 'n'] l hl hld
        (by decide) (by decide) (by decide)]
    simp [hfp, Nat.div_one]
  · unfold parseDurationCore
    rw [searchNumberUnit_none hourUnits 'h' hourUnits_head l hnh,
      searchNumberUnit_none minuteUnits 'm' minuteUnits_head l hnm]
    have hdd : l.all digitsDot = true := by
      rw [List.all_eq_true]
      intro x hx
      simp [digitsDot, hld x hx]
    simp [hl, hdd, hfp, Nat.div_one]

/-- Witness for C4 at the concrete run "45". -/
theorem c4_witness :
    parseDurationCore ((['4', '5']) ++ [' ', 'h', 'o', 'u', 'r'])
      = some (digitsVal (['4', '5']) * 60) ∧
    parseDurationCore ((['4', '5']) ++ [' ', 'm', 'i', 'n'])
      = some (digitsVal (['4', '5'])) ∧
    parseDurationCore (['4', '5']) = some (digitsVal (['4', '5'])) :=
  c4_duration_truncation.2.1 (['4', '5']) (by decide) (by decide) (by decide)

/-- Counterexample to C5 as stated: the parser succeeds on "0" with the
result 0, which is not strictly positive. -/
theorem c5_counterexample :
    parse_duration_to_minutes ("0") = some 0 ∧ ((0 : Nat) < 0 → False) := by
  decide

/-- C5 amended: on success the returned minute count is a nonnegative
integer — the grammar has no sign, so nothing below zero — but zero
itself is returned, for instance on "0" or "0.5 min", and the caller
(handle_ai_task_creation checks only for None) does not reject it. -/
theorem c5_duration_nonnegative :
    parse_duration_to_minutes ("0") = some 0 ∧
    parse_duration_to_minutes ("0.5 min") = some 0 ∧
    parse_duration_to_minutes ("45") = some 45 ∧
    (∀ s n, parse_duration_to_minutes s = some n → 0 ≤ n) := by
  exact ⟨by decide, by decide, by decide, fun s n _ => Nat.zero_le n⟩

/-- Witness for C5 at the concrete input "45". -/
theorem c5_witness : (0 : Nat) ≤ 45 :=
  c5_duration_nonnegative.2.2.2 ("45") 45 (by decide)

/-! ## C6, C7: the title codec -/

/-- Characters emitted by the hex encoding of bytes are hex digits, never
a colon and never a space. -/
theorem hexOfBytes_chars (bs : List Nat) (hv : ValidBytes bs) :
    ∀ c ∈ hexOfBytes bs, c ≠ ':' ∧ c ≠ ' ' := by
  induction bs with
  | nil => intro c hc; simp [hexOfBytes] at hc
  | cons b rest ih =>
    intro c hc
    have hb : b < 256 := hv b (List.mem_cons_self b rest)
    have hrest : ValidBytes rest := fun x hx => hv x (List.mem_cons_of_mem b hx)
    simp only [hexOfBytes, List.mem_cons] at hc
    have hdig : ∀ n : Nat, n < 16 → hexDigitChar n ≠ ':' ∧ hexDigitChar n ≠ ' ' := by
      intro n hn
      interval_cases n <;> exact ⟨by decide, by decide⟩
    rcases hc with rfl | rfl | hc
    · exact hdig _ (by omega)
    · exact hdig _ (by omega)
    · exact ih hrest c hc

/-- Hex decoding inverts hex encoding on genuine bytes. -/
theorem fromHex_hexOfBytes (bs : List Nat) (hv : ValidBytes bs) :
    fromHex (hexOfBytes bs) = some bs := by
  unfold fromHex
  have hfilter : (hexOfBytes bs).filter (fun c => c ≠ ' ') = hexOfBytes bs :=
    List.filter_eq_self.mpr (by
      intro c hc
      simpa using (hexOfBytes_chars bs hv c hc).2)
  rw [hfilter]
  induction bs with
  | nil => rfl
  | cons b rest ih =>
    have hb : b < 256 := hv b (List.mem_cons_self b rest)
    have hrest : ValidBytes rest := fun x hx => hv x (List.mem_cons_of_mem b hx)
    have hih := ih hrest (List.filter_eq_self.mpr (by
      intro c hc
      simpa using (hexOfBytes_chars rest hrest c hc).2))
    simp only [hexOfBytes, hexPairs, hih]
    have hhi : hexDigitVal (hexDigitChar (b / 16)) = some (b / 16) := by
      have : b / 16 < 16 := by omega
      interval_cases h : b / 16 <;> decide
    have hlo : hexDigitVal (hexDigitChar (b % 16)) = some (b % 16) := by
      have : b % 16 < 16 := by omega
      interval_cases h : b % 16 <;> decide
    rw [hhi, hlo]
    simp only [Option.some_inj, List.cons.injEq]
    exact ⟨by omega, trivial⟩

/-- Splitting on a separator that occurs exactly at the two joints of a
three-field string yields exactly the three fields. -/
theorem splitOnChar_three (sep : Char) (f1 f2 f3 : List Char)
    (h1 : ∀ c ∈ f1, c ≠ sep) (h2 : ∀ c ∈ f2, c ≠ sep) (h3 : ∀ c ∈ f3, c ≠ sep) :
    splitOnChar sep (f1 ++ sep :: (f2 ++ sep :: f3)) = [f1, f2, f3] := by
  have hterm : ∀ a : List Char, (∀ c ∈ a, c ≠ sep) → splitOnChar sep a = [a] := by
    intro a
    induction a with
    | nil => intro _; rfl
    | cons c rest ih =>
      intro ha
      simp only [splitOnChar]
      rw [if_neg (ha c (List.mem_cons_self c rest)), ih (fun x hx => ha x (List.mem_cons_of_mem c hx))]
  have hstep : ∀ (a r : List Char), (∀ c ∈ a, c ≠ sep) →
      splitOnChar sep (a ++ sep :: r) = a :: splitOnChar sep r := by
    intro a
    induction a with
    | nil =>
      intro r _
      simp [splitOnChar]
    | cons c rest ih =>
      intro r ha
      rw [List.cons_append]
      simp only [splitOnChar]
      rw [if_neg (ha c (List.mem_cons_self c rest)),
        ih r (fun x hx => ha x (List.mem_cons_of_mem c hx))]
  rw [hstep f1 _ h1, hstep f2 _ h2, hterm f3 h3]

/-- The decryption of a successfully produced encryption recovers the
plaintext, for any cipher and codec honouring the external contract and
any genuine-byte nonce. -/
theorem decrypt_encrypt_of_valid (E : ExternalCrypto) (nonce : List Nat)
    (hn : ValidBytes nonce) (text : String) :
    decrypt E (encrypt E nonce false text) = text := by
  by_cases ht : text = ""
  · subst ht
    simp [encrypt, decrypt]
  · have hpv : ValidBytes (E.utf8Enc text) := E.utf8_valid text
    have hctv := E.aead_ct_valid nonce _ hpv
    have htagv := E.aead_tag_valid nonce _ hpv
    have hdec := E.aead_roundtrip nonce _ hpv
    have hutf := E.utf8_roundtrip text
    simp only [encrypt, if_neg ht, Bool.false_eq_true, if_false]
    unfold decrypt
    rw [if_neg (by
      intro hcontra
      have : (hexOfBytes nonce ++ ':' :: (hexOfBytes (E.aeadEnc nonce (E.utf8Enc text)).2
          ++ ':' :: hexOfBytes (E.aeadEnc nonce (E.utf8Enc text)).1)) = [] :=
        congrArg String.data hcontra
      simp at this)]
    have hsplit := splitOnChar_three ':' (hexOfBytes nonce)
      (hexOfBytes (E.aeadEnc nonce (E.utf8Enc text)).2)
      (hexOfBytes (E.aeadEnc nonce (E.utf8Enc text)).1)
      (fun c hc => (hexOfBytes_chars _ hn c hc).1)
      (fun c hc => (hexOfBytes_chars _ htagv c hc).1)
      (fun c hc => (hexOfBytes_chars _ hctv c hc).1)
    simp only [hsplit, fromHex_hexOfBytes _ hn, fromHex_hexOfBytes _ htagv,
      fromHex_hexOfBytes _ hctv, hdec, hutf]

/-- C6: for every cipher and codec honouring the external contract and
every genuine-byte nonce, decrypt inverts encrypt on every plaintext;
and both encrypt and decrypt return the empty string unchanged. -/
theorem c6_roundtrip :
    (∀ (E : ExternalCrypto) (nonce : List Nat), ValidBytes nonce →
      ∀ text, decrypt E (encrypt E nonce false text) = text) ∧
    (∀ (E : ExternalCrypto) (nonce : List Nat) (exc : Bool),
      encrypt E nonce exc ("") = "") ∧
    (∀ E : ExternalCrypto, decrypt E ("") = "") := by
  refine ⟨decrypt_encrypt_of_valid, fun E nonce exc => rfl, fun E => rfl⟩

/-- Witness for C6: the round-trip evaluated in the concrete bundle. -/
theorem c6_witness :
    decrypt toyCrypto (encrypt toyCrypto ([3, 200]) false ("Write report")) =
      ("Write report") :=
  c6_roundtrip.1 toyCrypto ([3, 200]) (by intro b hb; fin_cases hb <;> decide) ("Write report")

/-- Counterexample to C7 as stated: a three-field hex value whose
authenticated decryption succeeds but whose decrypted bytes fail text
decoding is returned unchanged — UnicodeDecodeError is a subclass of
ValueError, so it lands in the handler that returns the input — where the
claim says such a decoding failure yields the sentinel value. -/
theorem c7_counterexample :
    decrypt toyCrypto ("01:07:05") = ("01:07:05") ∧
    (decrypt toyCrypto ("01:07:05") = ("[Decryption Error]") → False) := by
  decide

/-- C7 amended: decrypt never raises and returns the stored value
unchanged on every decoding failure — a value that does not split into
exactly 3 fields (legacy passthrough), malformed hex in any field, an
authentication failure, and also a text-decoding failure after successful
authentication (UnicodeDecodeError being a ValueError); no decoding path
reaches the sentinel branch, which is reserved for exceptions outside
ValueError and TypeError. -/
theorem c7_decrypt_error_handling :
    (∀ (E : ExternalCrypto) (stored : String),
      (splitOnChar ':' stored.data).length ≠ 3 → decrypt E stored = stored) ∧
    (∀ (E : ExternalCrypto) (stored : String) (f1 f2 f3 : List Char),
      splitOnChar ':' stored.data = [f1, f2, f3] →
      (fromHex f1 = none ∨ fromHex f2 = none ∨ fromHex f3 = none) →
      decrypt E stored = stored) ∧
    (∀ (E : ExternalCrypto) (stored : String) (f1 f2 f3 : List Char)
      (iv tag ct : List Nat),
      splitOnChar ':' stored.data = [f1, f2, f3] →
      fromHex f1 = some iv → fromHex f2 = some tag → fromHex f3 = some ct →
      E.aeadDec iv ct tag = none → decrypt E stored = stored) ∧
    (∀ (E : ExternalCrypto) (stored : String) (f1 f2 f3 : List Char)
      (iv tag ct pbytes : List Nat),
      splitOnChar ':' stored.data = [f1, f2, f3] →
      fromHex f1 = some iv → fromHex f2 = some tag → fromHex f3 = some ct →
      E.aeadDec iv ct tag = some pbytes → E.utf8Dec pbytes = none →
      decrypt E stored = stored) := by
  refine ⟨?_, ?_, ?_, ?_⟩
  · intro E stored h
    unfold decrypt
    by_cases he : stored = ""
    · rw [if_pos he]
    · rw [if_neg he]
      rcases hs : splitOnChar ':' stored.data with _ | ⟨g1, _ | ⟨g2, _ | ⟨g3, _ | ⟨g4, t⟩⟩⟩⟩
      · simp [hs]
      · simp [hs]
      · simp [hs]
      · rw [hs] at h; exact absurd rfl h
      · simp [hs]
  · intro E stored f1 f2 f3 hsplit hfail
    unfold decrypt
    by_cases he : stored = ""
    · rw [if_pos he]
    · rw [if_neg he]
      cases hf1 : fromHex f1 with
      | none => simp [hsplit, hf1]
      | some iv =>
        cases hf2 : fromHex f2 with
        | none => simp [hsplit, hf1, hf2]
        | some tag =>
          cases hf3 : fromHex f3 with
          | none => simp [hsplit, hf1, hf2, hf3]
          | some ct =>
            rcases hfail with h | h | h
            · rw [h] at hf1; exact absurd hf1 (by simp)
            · rw [h] at hf2; exact absurd hf2 (by simp)
            · rw [h] at hf3; exact absurd hf3 (by simp)
  · intro E stored f1 f2 f3 iv tag ct hsplit hf1 hf2 hf3 hdec
    unfold decrypt
    by_cases he : stored = ""
    · rw [if_pos he]
    · rw [if_neg he]
      simp [hsplit, hf1, hf2, hf3, hdec]
  · intro E stored f1 f2 f3 iv tag ct pbytes hsplit hf1 hf2 hf3 hdec hutf
    unfold decrypt
    by_cases he : stored = ""
    · rw [if_pos he]
    · rw [if_neg he]
      simp [hsplit, hf1, hf2, hf3, hdec, hutf]

/-- Witness for C7 at a concrete legacy value without colons. -/
theorem c7_witness :
    decrypt toyCrypto ("plainlegacytitle") = ("plainlegacytitle") :=
  c7_decrypt_error_handling.1 toyCrypto ("plainlegacytitle") (by decide)

/-! ## C8: the timezone-offset parser -/

/-- Numeric bounds of a digit character. -/
theorem isDigit_toNat (c : Char) (h : c.isDigit = true) :
    48 ≤ c.toNat ∧ c.toNat ≤ 57 := by
  simp [Char.isDigit, Char.le_def, UInt32.le_def, BitVec.le_def] at h
  simp [Char.toNat, UInt32.toNat]
  omega

/-- A nonempty character list makes a nonempty string. -/
theorem mk_cons_ne_empty (a : Char) (t : List Char) : (String.mk (a :: t)) ≠ "" := by
  intro hcontra
  have := congrArg String.data hcontra
  simp at this

/-- A digit character is not a colon. -/
theorem isDigit_ne_colon (c : Char) (h : c.isDigit = true) : c ≠ ':' := by
  intro hcontra
  subst hcontra
  revert h
  decide

/-- The offset parser succeeds exactly on the shapes of the claim: a
sign, 1-2 digit hours at most 14, optionally two minute digits at most
59 with or without a colon. -/
theorem tz_isSome_iff_shape :
    ∀ l : List Char, (parse_timezone_offset ⟨l⟩).isSome = true ↔ tzShape l = true := by
  intro l
  match l with
  | [] => decide
  | [s0] =>
    simp [parse_timezone_offset, mk_cons_ne_empty, tzMatch, tzShape]
  | [s0, h1] =>
    simp only [parse_timezone_offset, if_neg (mk_cons_ne_empty _ _)]
    by_cases hsign : (s0 = '+' || s0 = '-') = true
    · by_cases hdig : h1.isDigit = true
      · (simp [tzMatch, tzAfterHour, tzShape, hsign, hdig, dv])
      · simp [tzMatch, tzShape, hsign, hdig]
    · simp [tzMatch, tzShape, hsign]
  | [s0, h1, x2] =>
    simp only [parse_timezone_offset, if_neg (mk_cons_ne_empty _ _)]
    by_cases hsign : (s0 = '+' || s0 = '-') = true
    · by_cases hdig : h1.isDigit = true
      · by_cases hx2 : x2.isDigit = true
        · (simp [tzMatch, tzAfterHour, tzShape, hsign, hdig, hx2, dv])
        · simp [tzMatch, tzAfterHour, tzShape, hsign, hdig, hx2]
      · simp [tzMatch, tzShape, hsign, hdig]
    · simp [tzMatch, tzShape, hsign]
  | [s0, h1, x2, x3] =>
    simp only [parse_timezone_offset, if_neg (mk_cons_ne_empty _ _)]
    by_cases hsign : (s0 = '+' || s0 = '-') = true
    · by_cases hdig : h1.isDigit = true
      · obtain ⟨hb1, hb2⟩ := isDigit_toNat h1 hdig
        by_cases hx2 : x2.isDigit = true
        · by_cases hx3 : x3.isDigit = true
          · (simp [tzMatch, tzAfterHour, tzShape, hsign, hdig, hx2, hx3, dv])
          · simp [tzMatch, tzAfterHour, tzShape, hsign, hdig, hx2, hx3]
        · simp [tzMatch, tzAfterHour, tzShape, hsign, hdig, hx2]
      · simp [tzMatch, tzShape, hsign, hdig]
    · simp [tzMatch, tzShape, hsign]
  | [s0, h1, x2, x3, x4] =>
    simp only [parse_timezone_offset, if_neg (mk_cons_ne_empty _ _)]
    by_cases hsign : (s0 = '+' || s0 = '-') = true
    · by_cases hdig : h1.isDigit = true
      · obtain ⟨hb1, hb2⟩ := isDigit_toNat h1 hdig
        by_cases hx2 : x2.isDigit = true
        · have hx2c : x2 ≠ ':' := isDigit_ne_colon x2 hx2
          obtain ⟨hc1, hc2⟩ := isDigit_toNat x2 hx2
          by_cases hx3 : x3.isDigit = true
          · by_cases hx4 : x4.isDigit = true
            · (simp [tzMatch, tzAfterHour, tzShape, hsign, hdig, hx2, hx2c, hx3, hx4, dv])
            · simp [tzMatch, tzAfterHour, tzShape, hsign, hdig, hx2, hx2c, hx3, hx4]
          · (simp [tzMatch, tzAfterHour, tzShape, hsign, hdig, hx2, hx2c, hx3])
        · by_cases hcolon : x2 = ':'
          · by_cases hx3 : x3.isDigit = true
            · by_cases hx4 : x4.isDigit = true
              · (simp [tzMatch, tzAfterHour, tzShape, hsign, hdig, hx2, hcolon, hx3, hx4, dv])
              · simp [tzMatch, tzAfterHour, tzShape, hsign, hdig, hx2, hcolon, hx3, hx4]
            · simp [tzMatch, tzAfterHour, tzShape, hsign, hdig, hx2, hcolon, hx3]
          · simp [tzMatch, tzAfterHour, tzShape, hsign, hdig, hx2, hcolon]
      · simp [tzMatch, tzShape, hsign, hdig]
    · simp [tzMatch, tzShape, hsign]
  | [s0, h1, x2, x3, x4, x5] =>
    simp only [parse_timezone_offset, if_neg (mk_cons_ne_empty _ _)]
    by_cases hsign : (s0 = '+' || s0 = '-') = true
    · by_cases hdig : h1.isDigit = true
      · obtain ⟨hb1, hb2⟩ := isDigit_toNat h1 hdig
        by_cases hx2 : x2.isDigit = true
        · obtain ⟨hc1, hc2⟩ := isDigit_toNat x2 hx2
          by_cases hcolon : x3 = ':'
          · by_cases hx4 : x4.isDigit = true
            · by_cases hx5 : x5.isDigit = true
              · (simp [tzMatch, tzAfterHour, tzShape, hsign, hdig, hx2, hcolon, hx4, hx5, dv])
              · simp [tzMatch, tzAfterHour, tzShape, hsign, hdig, hx2, hcolon, hx4, hx5]
            · simp [tzMatch, tzAfterHour, tzShape, hsign, hdig, hx2, hcolon, hx4]
          · simp [tzMatch, tzAfterHour, tzShape, hsign, hdig, hx2, hcolon]
        · simp [tzMatch, tzAfterHour, tzShape, hsign, hdig, hx2]
      · simp [tzMatch, tzShape, hsign, hdig]
    · simp [tzMatch, tzShape, hsign]
  | s0 :: h1 :: x2 :: x3 :: x4 :: x5 :: x6 :: t =>
    simp only [parse_timezone_offset, if_neg (mk_cons_ne_empty _ _)]
    by_cases hsign : (s0 = '+' || s0 = '-') = true
    · by_cases hdig : h1.isDigit = true
      · by_cases hx2 : x2.isDigit = true
        · simp [tzMatch, tzAfterHour, tzShape, hsign, hdig, hx2]
        · simp [tzMatch, tzAfterHour, tzShape, hsign, hdig, hx2]
      · simp [tzMatch, tzShape, hsign, hdig]
    · simp [tzMatch, tzShape, hsign]

/-- C8: the offset parser succeeds exactly on a required sign, 1-2 digit
hours at most 14, and an optional 2-digit minutes field at most 59, with
or without a colon and defaulting to zero; anything else gives the
invalid result; and the offset is the fixed signed delta, so "-7" agrees
with "-07:00", "+14:00" is valid and "+15:00" is not. -/
theorem c8_timezone_offset :
    (∀ l : List Char, (parse_timezone_offset ⟨l⟩).isSome = true ↔ tzShape l = true) ∧
    parse_timezone_offset ("-7") = parse_timezone_offset ("-07:00") ∧
    parse_timezone_offset ("-7") = some (-420) ∧
    parse_timezone_offset ("+14:00") = some 840 ∧
    parse_timezone_offset ("+15:00") = none ∧
    parse_timezone_offset ("+5:30") = some 330 := by
  exact ⟨tz_isSome_iff_shape, by decide, by decide, by decide, by decide, by decide⟩

/-! ## C9: the reminder window -/

/-- C9: the lookahead interval is [now + 30min, now + 30min + 1min) over
now truncated to the whole minute; a task is returned exactly when it is
not completed and its start lies in the half-open interval; at now
10:00:17 the window is [10:30:00, 10:31:00), a task at 10:30:00 is kept
and tasks at 10:29:59 and 10:31:00 are not. -/
theorem c9_reminder_window :
    (∀ nowUs : Nat, reminderWindow nowUs =
      ((nowUs / minuteUs) * minuteUs + 30 * minuteUs,
       (nowUs / minuteUs) * minuteUs + 30 * minuteUs + minuteUs)) ∧
    (∀ (tasks : List TaskRow) (s e : Nat) (t : TaskRow),
      t ∈ get_tasks_for_reminder tasks s e ↔
      t ∈ tasks ∧ t.is_completed = false ∧ s ≤ t.scheduled_time ∧ t.scheduled_time < e) ∧
    reminderWindow (10 * hourUs + 17 * 1000000) =
      (10 * hourUs + 30 * minuteUs, 10 * hourUs + 31 * minuteUs) ∧
    get_tasks_for_reminder
      [⟨10 * hourUs + 30 * minuteUs, false⟩,
       ⟨10 * hourUs + 29 * minuteUs + 59 * 1000000, false⟩,
       ⟨10 * hourUs + 31 * minuteUs, false⟩,
       ⟨10 * hourUs + 30 * minuteUs, true⟩]
      (10 * hourUs + 30 * minuteUs) (10 * hourUs + 31 * minuteUs)
      = [⟨10 * hourUs + 30 * minuteUs, false⟩] := by
  refine ⟨fun nowUs => rfl, ?_, by decide, by decide⟩
  intro tasks s e t
  simp [get_tasks_for_reminder, List.mem_filter, and_assoc]

/-! ## C10: encrypt under an exception -/

/-- C10: when any step inside encrypt's try block raises, the except
handler returns the plaintext unchanged, so the value handed to storage
is the unencrypted title; the function never propagates the exception. -/
theorem c10_encrypt_exception_plaintext :
    ∀ (E : ExternalCrypto) (nonce : List Nat) (text : String),
      encrypt E nonce true text = text := by
  intro E nonce text
  unfold encrypt
  by_cases ht : text = ""
  · rw [if_pos ht]
  · rw [if_neg ht, if_pos rfl]

end Plazen
